import Mathlib

/-!
Verification of the currency-swap coding-challenge repository.

The development shallowly embeds the JavaScript sources:
`src/utils/currency.js` (pure currency utilities), `src/services/priceService.js`
(the TTL price cache), `src/hooks/useSwap.js` (the swap session state and actions)
and `src/problem1.js` (the three sum-to-n implementations).

JavaScript numbers are modelled as exact rationals (`ℚ`): all arithmetic appearing
in the claims is either exact in IEEE doubles at the inputs considered, or the
claims are stated over the idealised exact semantics.  `NaN`/`Infinity` are
modelled explicitly by the `JSNum` type where the code can produce or consume
them.  Stateful React hooks become explicit state-passing functions on a
`SwapState` record; asynchronous actions become the list of states observed at
each suspension point.
-/

set_option maxRecDepth 4000

/- The Batteries `Rat` operations are `@[irreducible]`, which blocks `decide`
from evaluating concrete rational arithmetic; re-tag them for this file.
This only changes elaborator unfolding hints, not any definition. -/
set_option allowUnsafeReducibility true
attribute [local semireducible] Rat.mul Rat.add Rat.sub Rat.inv Rat.ofScientific

/-- JavaScript number values as far as the embedded code distinguishes them:
`NaN`, the two infinities, and finite values (idealised as exact rationals). -/
inductive JSNum where
  | nan : JSNum
  | posInf : JSNum
  | negInf : JSNum
  | fin : ℚ → JSNum
deriving DecidableEq

/-- Whitespace characters recognised when trimming / before `parseFloat`
(the subset of JS WhiteSpace actually reachable from the UI strings). -/
def isWS (c : Char) : Bool :=
  c = ' ' || c = '\t' || c = '\n' || c = '\r'

/-- Model of `String.prototype.trim`. -/
def jsTrim (s : String) : String :=
  String.mk (((s.toList.dropWhile isWS).reverse.dropWhile isWS).reverse)

/-- Numeric value of a decimal digit character. -/
def digVal (c : Char) : ℕ := c.toNat - 48

/-- Value of a digit list read as a decimal natural number. -/
def digitsToNat (ds : List Char) : ℕ :=
  ds.foldl (fun a c => 10 * a + digVal c) 0

/-- Parse an optional exponent part (`e`/`E`, optional sign, digits) after the
mantissa; an exponent with no digits is ignored, as `parseFloat` takes the
longest valid numeric prefix. -/
def parseExpPart (cs : List Char) : ℤ :=
  match cs with
  | 'e' :: rest | 'E' :: rest =>
    match rest with
    | '+' :: rest2 =>
      let ds := rest2.takeWhile Char.isDigit
      if ds = [] then 0 else (digitsToNat ds : ℤ)
    | '-' :: rest2 =>
      let ds := rest2.takeWhile Char.isDigit
      if ds = [] then 0 else -(digitsToNat ds : ℤ)
    | _ =>
      let ds := rest.takeWhile Char.isDigit
      if ds = [] then 0 else (digitsToNat ds : ℤ)
  | _ => 0

/-- Parse an unsigned decimal literal `digits [. digits] [exponent]`;
`none` when no digit occurs in the mantissa (JS `NaN`). -/
def parseUnsigned (cs : List Char) : Option ℚ :=
  let d1 := cs.takeWhile Char.isDigit
  let r1 := cs.dropWhile Char.isDigit
  let d2 :=
    match r1 with
    | '.' :: rest => rest.takeWhile Char.isDigit
    | _ => []
  let r2 :=
    match r1 with
    | '.' :: rest => rest.dropWhile Char.isDigit
    | _ => r1
  if d1 = [] ∧ d2 = [] then none
  else
    let mant : ℚ := (digitsToNat d1 : ℚ) + (digitsToNat d2 : ℚ) / 10 ^ d2.length
    some (mant * (10 : ℚ) ^ parseExpPart r2)

/-- Model of the global `parseFloat`: skip leading whitespace, optional sign,
then `Infinity` or the longest decimal-literal prefix; `NaN` when none parses.
Decimal-to-binary rounding is idealised away (values are exact rationals). -/
def parseFloat (s : String) : JSNum :=
  let cs := s.toList.dropWhile isWS
  match cs with
  | '-' :: rest =>
    if "Infinity".toList.isPrefixOf rest then .negInf
    else match parseUnsigned rest with
      | some q => .fin (-q)
      | none => .nan
  | '+' :: rest =>
    if "Infinity".toList.isPrefixOf rest then .posInf
    else match parseUnsigned rest with
      | some q => .fin q
      | none => .nan
  | _ =>
    if "Infinity".toList.isPrefixOf cs then .posInf
    else match parseUnsigned cs with
      | some q => .fin q
      | none => .nan

/-- Decimal digit character for `d < 10`. -/
def digitChar (d : ℕ) : Char := Char.ofNat (48 + d)

/-- Decimal digits of a natural number, most significant first.
Fuel-driven so that it reduces in the kernel; 400 digits cover every value a
JS double can take. -/
def natDigitsAux : ℕ → ℕ → List Char
  | 0, _ => []
  | fuel + 1, n =>
    if n < 10 then [digitChar n]
    else natDigitsAux fuel (n / 10) ++ [digitChar (n % 10)]

/-- Decimal digit string of a natural number. -/
def natDigitChars (n : ℕ) : List Char := natDigitsAux 400 n

/-- Fractional digits of `q ∈ [0,1)`, stopping at an exact zero remainder
(JS never prints trailing zeros) or after `fuel` digits.  The truncation only
matters for rationals that are not JS doubles. -/
def fracDigits : ℕ → ℚ → List Char
  | 0, _ => []
  | fuel + 1, q =>
    if q = 0 then []
    else
      let d := (⌊q * 10⌋).toNat
      digitChar d :: fracDigits fuel (q * 10 - d)

/-- Plain (non-scientific) decimal rendering of a positive rational, as
`Number.prototype.toString` produces for values in `[1e-6, 1e21)`. -/
def posRatDecimal (q : ℚ) : List Char :=
  let ip := (⌊q⌋).toNat
  let fr := q - ip
  natDigitChars ip ++ (if fr = 0 then [] else '.' :: fracDigits 100 fr)

/-- Largest `e ≥ 0` with `10 ^ e ≤ q`, for `q ≥ 1` (fuel-driven decimal log). -/
def decExpPosAux : ℕ → ℚ → ℕ
  | 0, _ => 0
  | fuel + 1, q => if q < 10 then 0 else 1 + decExpPosAux fuel (q / 10)

/-- Smallest `k ≥ 1` with `1 ≤ q * 10 ^ k`, for `0 < q < 1` (fuel-driven). -/
def decExpNegAux : ℕ → ℚ → ℕ
  | 0, _ => 1
  | fuel + 1, q => if 1 ≤ q * 10 then 1 else 1 + decExpNegAux fuel (q * 10)

/-- Decimal exponent of a positive rational. -/
def decExp (q : ℚ) : ℤ :=
  if 1 ≤ q then (decExpPosAux 400 q : ℤ) else -(decExpNegAux 400 q : ℤ)

/-- Scientific rendering (`5e+21`-style) of a positive rational, as
`Number.prototype.toString` produces outside `[1e-6, 1e21)`. -/
def posRatSci (q : ℚ) : List Char :=
  let e := decExp q
  let m := q * (10 : ℚ) ^ (-e)
  posRatDecimal m ++
    'e' :: (if 0 ≤ e then '+' :: natDigitChars e.toNat else '-' :: natDigitChars (-e).toNat)

/-- Rendering of a positive rational following the JS double thresholds. -/
def posRatChars (q : ℚ) : List Char :=
  if (10 : ℚ) ^ (21 : ℕ) ≤ q ∨ q < 1 / 10 ^ (6 : ℕ) then posRatSci q else posRatDecimal q

/-- Character rendering of any rational. -/
def ratToChars (q : ℚ) : List Char :=
  if q = 0 then ['0']
  else if q < 0 then '-' :: posRatChars (-q)
  else posRatChars q

/-- Model of `Number.prototype.toString` on the `JSNum` values the embedded
code can produce. -/
def jsNumToString : JSNum → String
  | .nan => "NaN"
  | .posInf => "Infinity"
  | .negInf => "-Infinity"
  | .fin q => String.mk (ratToChars q)

/-- The amount-input regular expression of `useSwap.js`, `/^\d*\.?\d*$/`:
digits, at most one dot, digits — each part possibly empty. -/
def decPatList (cs : List Char) : Bool :=
  match cs.dropWhile Char.isDigit with
  | [] => true
  | '.' :: rest => rest.all Char.isDigit
  | _ => false

/-- `/^\d*\.?\d*$/.test s` on strings. -/
def decPat (s : String) : Bool := decPatList s.toList

/-! ## Data model -/

/-- A raw price-feed record (`{currency, price, date}`); the `date` field is an
ISO timestamp in the feed, modelled as an integer timestamp since only its
order is used (`new Date(a) > new Date(b)`). -/
structure PriceSample where
  currency : String
  price : ℚ
  date : ℤ
deriving DecidableEq

/-- A processed token (`processTokenData` output). -/
structure Token where
  currency : String
  price : ℚ
  lastUpdated : ℤ
  iconUrl : String
deriving DecidableEq

/-- `getTokenIconUrl` from `utils/currency.js`. -/
def getTokenIconUrl (currency : String) : String :=
  if currency = "" then ""
  else "https://raw.githubusercontent.com/Switcheo/token-icons/main/tokens/" ++ currency ++ ".svg"

/-- One step of the `tokenMap` construction in `processTokenData`:
`const existing = tokenMap.get(item.currency); if (!existing || new Date(item.date) > new Date(existing.date)) tokenMap.set(item.currency, item)`.
A JS `Map` keyed by currency, in insertion order, is an association list with
distinct keys; `Map.set` on a present key replaces the value in place. -/
def upsert (m : List PriceSample) (item : PriceSample) : List PriceSample :=
  match m with
  | [] => [item]
  | x :: xs =>
    if x.currency = item.currency then
      (if item.date > x.date then item else x) :: xs
    else
      x :: upsert xs item

/-- `processTokenData` from `utils/currency.js`: group samples by currency
keeping the latest date, then build `Token` objects. -/
def processTokenData (priceData : List PriceSample) : List Token :=
  (priceData.foldl upsert []).map fun item =>
    { currency := item.currency
      price := item.price
      lastUpdated := item.date
      iconUrl := getTokenIconUrl item.currency }

/-! ## Swap calculator and validator (`utils/currency.js`) -/

/-- `calculateExchangeRate`: `if (!fromToken?.price || !toToken?.price || fromToken.price === 0) return 0; return fromToken.price / toToken.price`.
A missing token or a zero (falsy) price yields `0`. -/
def calculateExchangeRate (fromToken toToken : Option Token) : ℚ :=
  match fromToken, toToken with
  | some f, some t => if f.price = 0 ∨ t.price = 0 then 0 else f.price / t.price
  | _, _ => 0

/-- `calculateOutputAmount` on a string input (how the hook calls it):
parse, return `0` when `NaN`, `≤ 0` or the rate is `≤ 0`, else multiply.
A parsed `+Infinity` passes the `amount <= 0` test and propagates. -/
def calculateOutputAmount (inputAmount : String) (exchangeRate : ℚ) : JSNum :=
  match parseFloat inputAmount with
  | .nan => .fin 0
  | .negInf => .fin 0
  | .posInf => if exchangeRate ≤ 0 then .fin 0 else .posInf
  | .fin a => if a ≤ 0 ∨ exchangeRate ≤ 0 then .fin 0 else .fin (a * exchangeRate)

/-- `isValidAmount`: non-empty after trimming, parses to a finite number `> 0`. -/
def isValidAmount (amount : String) : Bool :=
  if amount = "" || jsTrim amount = "" then false
  else
    match parseFloat amount with
    | .fin q => decide (0 < q)
    | _ => false

/-- Result object of `validateSwapData` (`{isValid, error?}`). -/
structure ValidationResult where
  isValid : Bool
  error : Option String
deriving DecidableEq

/-- `validateSwapData` from `utils/currency.js`: the four checks in source order,
first failure short-circuiting. -/
def validateSwapData (fromToken toToken : Option Token) (fromAmount : String) :
    ValidationResult :=
  match fromToken with
  | none => ⟨false, some "Please select a token to swap from"⟩
  | some f =>
    match toToken with
    | none => ⟨false, some "Please select a token to swap to"⟩
    | some t =>
      if f.currency = t.currency then ⟨false, some "Cannot swap the same token"⟩
      else if ¬ isValidAmount fromAmount then ⟨false, some "Please enter a valid amount"⟩
      else ⟨true, none⟩

/-! ## Debounce (`utils/currency.js`)

`debounce(func, delay)` keeps one pending timer; each call clears it and
schedules `func` with the new arguments `delay` later.  A chronologically
sorted list of call events `(time, args)` therefore produces one execution
`(t + delay, args)` for every call whose timer reaches its fire time before
the next call arrives. -/

/-- Executions produced by a debounced function over a sorted call sequence. -/
def debounceRun {α : Type} (delay : ℕ) : List (ℕ × α) → List (ℕ × α)
  | [] => []
  | [(t, a)] => [(t + delay, a)]
  | (t, a) :: (t', a') :: rest =>
    if t + delay ≤ t' then (t + delay, a) :: debounceRun delay ((t', a') :: rest)
    else debounceRun delay ((t', a') :: rest)

/-! ## Price cache (`services/priceService.js`) -/

/-- A cache entry (`{data, timestamp}`) under the single key `"tokens"`. -/
structure CacheEntry where
  data : List Token
  timestamp : ℕ
deriving DecidableEq

/-- `this.CACHE_DURATION = 30000`. -/
def CACHE_DURATION : ℕ := 30000

/-- `PriceService.getTokens`, with the clock and the outcome of the (at most
one) `fetchPrices()` call passed explicitly.  Returns the result delivered to
the caller and the cache state after the call.  `fetchPrices` itself wraps any
failure into the message `"Failed to fetch price data. Please try again."`,
carried here in the `Except.error` case. -/
def getTokens (cache : Option CacheEntry) (now : ℕ)
    (fetchResult : Except String (List PriceSample)) :
    Except String (List Token) × Option CacheEntry :=
  match cache with
  | some cached =>
    if now - cached.timestamp < CACHE_DURATION then
      (.ok cached.data, some cached)
    else
      match fetchResult with
      | .ok priceData =>
        let tokens := processTokenData priceData
        (.ok tokens, some ⟨tokens, now⟩)
      | .error _ => (.ok cached.data, some cached)
  | none =>
    match fetchResult with
    | .ok priceData =>
      let tokens := processTokenData priceData
      (.ok tokens, some ⟨tokens, now⟩)
    | .error e => (.error e, none)

/-! ## Swap session state (`hooks/useSwap.js`)

The hook state is `formData = {fromToken, toToken, fromAmount, toAmount}` plus
`isLoading` and `error`; `exchangeRate` and `validation` are derived by
`useMemo`.  Each action becomes a function `SwapState → SwapState`; the async
`executeSwap` becomes the list of states observed at each suspension point
plus a flag recording whether the simulated commit ran. -/

/-- The mutable swap session state. -/
structure SwapState where
  fromToken : Option Token
  toToken : Option Token
  fromAmount : String
  toAmount : String
  isLoading : Bool
  error : Option String
deriving DecidableEq

/-- The initial hook state. -/
def initialSwapState : SwapState :=
  { fromToken := none, toToken := none, fromAmount := "", toAmount := "",
    isLoading := false, error := none }

/-- Derived `exchangeRate` memo: `null` unless both tokens are set, else
`calculateExchangeRate(fromToken, toToken)`. -/
def exchangeRateOf (st : SwapState) : Option ℚ :=
  match st.fromToken, st.toToken with
  | some _, some _ => some (calculateExchangeRate st.fromToken st.toToken)
  | _, _ => none

/-- `setFromToken` action. -/
def setFromToken (token : Option Token) (st : SwapState) : SwapState :=
  { st with fromToken := token }

/-- `setToToken` action. -/
def setToToken (token : Option Token) (st : SwapState) : SwapState :=
  { st with toToken := token }

/-- `setFromAmount`: accept the string only when it is empty or matches
`/^\d*\.?\d*$/`; otherwise the previous value is retained. -/
def setFromAmount (amount : String) (st : SwapState) : SwapState :=
  if amount = "" || decPat amount then { st with fromAmount := amount } else st

/-- `setToAmount`: same acceptance test; additionally, when the derived
`exchangeRate` and the new amount are both truthy (`exchangeRate && amount` —
so a `null` or `0` rate skips the branch), immediately back-computes
`fromAmount = calculateOutputAmount(amount, 1 / exchangeRate).toString()`. -/
def setToAmount (amount : String) (st : SwapState) : SwapState :=
  if amount = "" || decPat amount then
    let st1 := { st with toAmount := amount }
    match exchangeRateOf st with
    | some rate =>
      if rate ≠ 0 ∧ amount ≠ "" then
        { st1 with fromAmount := jsNumToString (calculateOutputAmount amount (1 / rate)) }
      else st1
    | none => st1
  else st

/-- The debounced callback body of `debouncedCalculateToAmount`:
`(amount, rate) => rate && amount ? toAmount := calculateOutputAmount(amount, rate).toString() : toAmount := ""`. -/
def debouncedCalculateToAmount (amount : String) (rate : Option ℚ) (st : SwapState) :
    SwapState :=
  match rate with
  | some r =>
    if r ≠ 0 ∧ amount ≠ "" then
      { st with toAmount := jsNumToString (calculateOutputAmount amount r) }
    else { st with toAmount := "" }
  | none => { st with toAmount := "" }

/-- The auto-calculation effect: when the debounce timer of the last
`fromAmount`/rate change fires, `toAmount` is recomputed from the pair observed
at scheduling time (`exchangeRate && fromAmount` guards the call; otherwise the
effect clears `toAmount` synchronously). -/
def autoCalcEffect (st : SwapState) : SwapState :=
  match exchangeRateOf st with
  | some rate =>
    if rate ≠ 0 ∧ st.fromAmount ≠ "" then
      debouncedCalculateToAmount st.fromAmount (some rate) st
    else { st with toAmount := "" }
  | none => { st with toAmount := "" }

/-- `swapTokens`: exchange the token pair and the amount pair. -/
def swapTokens (st : SwapState) : SwapState :=
  { st with fromToken := st.toToken, toToken := st.fromToken,
            fromAmount := st.toAmount, toAmount := st.fromAmount }

/-- `resetForm`: clear all form fields and the error. -/
def resetForm (st : SwapState) : SwapState :=
  { st with fromToken := none, toToken := none, fromAmount := "", toAmount := "",
            error := none }

/-- `executeSwap`.  Validation failure: set `error` to the validation message
(`validation.error || "Invalid swap data"`) and return — one observed state, no
commit.  Otherwise: set `isLoading = true` and clear `error` (first observed
state), await the simulated commit (which succeeds by construction), then
`resetForm()` and — in the same run-to-completion segment — the `finally`
clears `isLoading` (second observed state).  Returns the observed states and
whether the commit ran. -/
def executeSwap (st : SwapState) : List SwapState × Bool :=
  let validation := validateSwapData st.fromToken st.toToken st.fromAmount
  if validation.isValid then
    let loading := { st with isLoading := true, error := none }
    let final := { resetForm loading with isLoading := false }
    ([loading, final], true)
  else
    ([{ st with error := some (validation.error.getD "Invalid swap data") }], false)

/-- Both amount fields satisfy the `/^\d*\.?\d*$/` lexical invariant
(the empty string matches the pattern). -/
def amountsValid (st : SwapState) : Prop :=
  decPat st.fromAmount = true ∧ decPat st.toAmount = true

/-- Invariant of the `tokenMap` construction in `processTokenData` after the
samples `processed` have been folded into the association list `acc`:
currencies are distinct, exactly the processed currencies are present, and
every stored sample is a processed sample of maximal date for its currency. -/
def MapInv (processed acc : List PriceSample) : Prop :=
  (acc.map PriceSample.currency).Nodup ∧
  (∀ c, c ∈ acc.map PriceSample.currency ↔ c ∈ processed.map PriceSample.currency) ∧
  (∀ s ∈ acc, s ∈ processed ∧
    ∀ s' ∈ processed, s'.currency = s.currency → s'.date ≤ s.date)

/-! ## The three sum-to-n implementations (`problem1.js`)

JS numbers are modelled as `ℚ` with the argument restricted to `ℕ`, the range
on which the claim quantifies. -/

/-- `sum_to_n_a`: the closed formula `(n * (n + 1)) / 2`. -/
def sum_to_n_a (n : ℕ) : ℚ := (n * (n + 1)) / 2

/-- `sum_to_n_b`: `let sum = 0; for (let i = 1; i <= n; i++) sum += i`. -/
def sum_to_n_b (n : ℕ) : ℚ :=
  (List.range' 1 n).foldl (fun (sum : ℚ) (i : ℕ) => sum + (i : ℚ)) 0

/-- `sum_to_n_c`: `if (n <= 1) return n; return n + sum_to_n_c(n - 1)`. -/
def sum_to_n_c (n : ℕ) : ℚ :=
  if _h : n ≤ 1 then n else n + sum_to_n_c (n - 1)
termination_by n
decreasing_by omega

/-! ## Concrete fixtures used by witnesses and counterexamples -/

/-- ETH at $2000 (the spec's example token). -/
def ethToken : Token :=
  { currency := "ETH", price := 2000, lastUpdated := 0, iconUrl := getTokenIconUrl "ETH" }

/-- BTC at $30000 (the spec's example token). -/
def btcToken : Token :=
  { currency := "BTC", price := 30000, lastUpdated := 0, iconUrl := getTokenIconUrl "BTC" }

/-- A token whose (falsy) price is `0`. -/
def zeroPriceToken : Token :=
  { currency := "ZRO", price := 0, lastUpdated := 0, iconUrl := getTokenIconUrl "ZRO" }

/-- A token with a negative price: not a positive price, yet truthy in JS. -/
def negPriceToken : Token :=
  { currency := "NEG", price := -1, lastUpdated := 0, iconUrl := getTokenIconUrl "NEG" }

/-- A token priced at $1 (USDC-like). -/
def oneToken : Token :=
  { currency := "ONE", price := 1, lastUpdated := 0, iconUrl := getTokenIconUrl "ONE" }

/-- A high-priced token used to produce a large exchange rate. -/
def bigPriceToken : Token :=
  { currency := "BIG", price := 5000000, lastUpdated := 0, iconUrl := getTokenIconUrl "BIG" }

/-- A cheap token used as the target of a large exchange rate. -/
def tenPriceToken : Token :=
  { currency := "TEN", price := 10, lastUpdated := 0, iconUrl := getTokenIconUrl "TEN" }

/-- A reachable session whose debounced recomputation writes a value at
`5e21`: rate `5000000 / 10 = 500000` times amount `1e16`. -/
def hugeAmountState : SwapState :=
  setFromAmount "10000000000000000"
    (setToToken (some tenPriceToken) (setFromToken (some bigPriceToken) initialSwapState))

/-- A session whose derived exchange rate is `0` (zero-priced source token). -/
def zeroRateState : SwapState :=
  { fromToken := some zeroPriceToken, toToken := some oneToken,
    fromAmount := "7", toAmount := "", isLoading := false, error := none }

/-- A Ready session: distinct tokens, valid amount. -/
def readyState : SwapState :=
  { fromToken := some ethToken, toToken := some btcToken,
    fromAmount := "10", toAmount := "", isLoading := false, error := none }

example : decPat "" = true := by decide
example : decPat "123.45" = true := by decide
example : decPat "." = true := by decide
example : decPat "abc" = false := by decide
example : decPat "1.2.3" = false := by decide
example : decPat "5e+21" = false := by decide
example : parseFloat "10" = .fin 10 := by decide
example : parseFloat "  1.5" = .fin (3/2) := by decide
example : parseFloat "." = .nan := by decide
example : parseFloat "-Infinity" = .negInf := by decide
example : parseFloat "2e3" = .fin 2000 := by decide
example : jsNumToString (.fin (5 * 10 ^ (21 : ℕ))) = "5e+21" := by decide
example : jsNumToString (.fin (1/2)) = "0.5" := by decide
example : jsNumToString (.fin 20) = "20" := by decide

/-! ## Helper lemmas -/

theorem sum_icc_rat (n : ℕ) : (∑ i ∈ Finset.Icc 1 n, (i : ℚ)) = (n * (n + 1)) / 2 := by
  induction n with
  | zero => simp
  | succ n ih =>
    rw [Finset.sum_Icc_succ_top (by omega : 1 ≤ n + 1), ih]
    push_cast
    ring

theorem sum_to_n_b_succ (n : ℕ) : sum_to_n_b (n + 1) = sum_to_n_b n + (n + 1) := by
  unfold sum_to_n_b
  rw [List.range'_concat, List.foldl_append]
  simp
  ring

theorem sum_to_n_b_eq (n : ℕ) : sum_to_n_b n = (n * (n + 1)) / 2 := by
  induction n with
  | zero => simp [sum_to_n_b]
  | succ n ih =>
    rw [sum_to_n_b_succ, ih]
    push_cast
    ring

theorem sum_to_n_c_eq (n : ℕ) : sum_to_n_c n = (n * (n + 1)) / 2 := by
  induction n with
  | zero => rw [sum_to_n_c]; norm_num
  | succ n ih =>
    rw [sum_to_n_c]
    by_cases h : n + 1 ≤ 1
    · have hn : n = 0 := by omega
      subst hn
      norm_num
    · have hn : n + 1 - 1 = n := by omega
      rw [dif_neg h, hn, ih]
      push_cast
      ring

/-! ## Claim theorems -/

/-- C10: for every natural number `n`, the three sum-to-n implementations
agree — `sum_to_n_a n = sum_to_n_b n = sum_to_n_c n` — and each equals the sum
of the integers `1..n`, i.e. `n * (n + 1) / 2`. -/
theorem sum_to_n_equivalence (n : ℕ) :
    sum_to_n_a n = sum_to_n_b n ∧ sum_to_n_b n = sum_to_n_c n ∧
    sum_to_n_a n = (∑ i ∈ Finset.Icc 1 n, (i : ℚ)) ∧
    sum_to_n_a n = (n * (n + 1)) / 2 := by
  have ha : sum_to_n_a n = (n * (n + 1) : ℚ) / 2 := by
    unfold sum_to_n_a
    ring
  refine ⟨?_, ?_, ?_, ?_⟩
  · rw [ha, sum_to_n_b_eq]
  · rw [sum_to_n_b_eq, sum_to_n_c_eq]
  · rw [ha, sum_icc_rat]
  · rw [ha]

/-- C1: `PriceService.getTokens` returns the cached data unchanged (touching
neither entry nor timestamp, independently of any fetch outcome) when the
entry's age is strictly below the 30s TTL; otherwise, on fetch success it
stores and returns the deduplicated tokens under a fresh timestamp, on fetch
failure it falls back to the stale entry's data when one exists, and
propagates the fetch error precisely when no entry exists. -/
theorem getTokens_cache_spec (c : CacheEntry) (now : ℕ)
    (fr : Except String (List PriceSample)) (pd : List PriceSample) (e : String) :
    (now - c.timestamp < CACHE_DURATION →
      getTokens (some c) now fr = (.ok c.data, some c)) ∧
    (¬ now - c.timestamp < CACHE_DURATION →
      getTokens (some c) now (.ok pd) =
        (.ok (processTokenData pd), some ⟨processTokenData pd, now⟩)) ∧
    (getTokens none now (.ok pd) =
      (.ok (processTokenData pd), some ⟨processTokenData pd, now⟩)) ∧
    (¬ now - c.timestamp < CACHE_DURATION →
      getTokens (some c) now (.error e) = (.ok c.data, some c)) ∧
    (getTokens none now (.error e) = (.error e, none)) := by
  refine ⟨fun h => ?_, fun h => ?_, ?_, fun h => ?_, ?_⟩ <;>
    simp [getTokens, *]

/-- Witness for C1: a fresh entry is served from cache even when the fetch
would fail, and a stale entry is served as fallback when the fetch fails. -/
theorem getTokens_cache_spec_witness :
    ((0 : ℕ) - 0 < CACHE_DURATION ∧
      getTokens (some ⟨[], 0⟩) 0 (.error "x") = (.ok [], some ⟨[], 0⟩)) ∧
    (¬ ((50000 : ℕ) - 0 < CACHE_DURATION) ∧
      getTokens (some ⟨[], 0⟩) 50000 (.error "x") = (.ok [], some ⟨[], 0⟩)) :=
  ⟨⟨by decide, (getTokens_cache_spec ⟨[], 0⟩ 0 (.error "x") [] "x").1 (by decide)⟩,
   ⟨by decide, (getTokens_cache_spec ⟨[], 0⟩ 50000 (.error "x") [] "x").2.2.2.1 (by decide)⟩⟩

/-- C4: `validateSwapData` performs its checks in source order — fromToken
present, toToken present, distinct currencies, `isValidAmount` — returning
`{isValid := false}` with exactly the message of the first failing check
(later checks are never evaluated: the earlier cases hold for every value of
the later arguments), and `{isValid := true}` when all four pass. -/
theorem validateSwapData_spec (f t : Token) (s : String) :
    (∀ tt s', validateSwapData none tt s' =
      ⟨false, some "Please select a token to swap from"⟩) ∧
    (∀ s', validateSwapData (some f) none s' =
      ⟨false, some "Please select a token to swap to"⟩) ∧
    (f.currency = t.currency → ∀ s', validateSwapData (some f) (some t) s' =
      ⟨false, some "Cannot swap the same token"⟩) ∧
    (f.currency ≠ t.currency → isValidAmount s = false →
      validateSwapData (some f) (some t) s =
        ⟨false, some "Please enter a valid amount"⟩) ∧
    (f.currency ≠ t.currency → isValidAmount s = true →
      validateSwapData (some f) (some t) s = ⟨true, none⟩) := by
  refine ⟨fun tt s' => rfl, fun s' => rfl, fun h s' => ?_, fun h1 h2 => ?_, fun h1 h2 => ?_⟩ <;>
    simp [validateSwapData, *]

/-- Witness for C4: identical tokens fail with the same-token message even
with a junk amount, and a Ready triple validates. -/
theorem validateSwapData_spec_witness :
    validateSwapData (some ethToken) (some ethToken) "abc" =
      ⟨false, some "Cannot swap the same token"⟩ ∧
    validateSwapData (some ethToken) (some btcToken) "10" = ⟨true, none⟩ :=
  ⟨(validateSwapData_spec ethToken ethToken "abc").2.2.1 (by decide) "abc",
   (validateSwapData_spec ethToken btcToken "10").2.2.2.2 (by decide) (by decide)⟩

/-- C5: calling `executeSwap` on a session that fails validation does not
enter the Executing state: the only observed state keeps `isLoading` at
`false` and every form field unchanged, the commit step never runs, and
`error` is set to the specific validation message (for a session with no
tokens set, `"Please select a token to swap from"`). -/
theorem executeSwap_rejected_spec (st : SwapState)
    (hv : (validateSwapData st.fromToken st.toToken st.fromAmount).isValid = false)
    (hl : st.isLoading = false) :
    executeSwap st =
      ([{ st with error := some ((validateSwapData st.fromToken st.toToken
            st.fromAmount).error.getD "Invalid swap data") }], false) ∧
    (∀ s ∈ (executeSwap st).1, s.isLoading = false ∧ s.fromToken = st.fromToken ∧
      s.toToken = st.toToken ∧ s.fromAmount = st.fromAmount ∧ s.toAmount = st.toAmount) ∧
    (st.fromToken = none →
      (validateSwapData st.fromToken st.toToken st.fromAmount).error =
        some "Please select a token to swap from") := by
  refine ⟨by simp [executeSwap, hv], ?_, fun hnone => ?_⟩
  · intro s hs
    simp [executeSwap, hv] at hs
    subst hs
    simp [hl]
  · rw [hnone, validateSwapData]

/-- Witness for C5: `executeSwap` on the empty initial session. -/
theorem executeSwap_rejected_spec_witness :
    (validateSwapData initialSwapState.fromToken initialSwapState.toToken
        initialSwapState.fromAmount).isValid = false ∧
    executeSwap initialSwapState =
      ([{ initialSwapState with error := some "Please select a token to swap from" }], false) :=
  ⟨by decide,
   by
    have h := (executeSwap_rejected_spec initialSwapState (by decide) (by decide)).1
    simpa using h⟩

/-- C6: a successful `executeSwap` on a Ready session observes exactly the
Executing state (`isLoading := true`, `error` cleared, form untouched)
followed — after the simulated commit — by the fully reset session:
`isLoading` goes `false → true → false` and the final state is the initial
empty state. -/
theorem executeSwap_success_spec (st : SwapState)
    (hv : (validateSwapData st.fromToken st.toToken st.fromAmount).isValid = true)
    (hl : st.isLoading = false) :
    executeSwap st =
      ([{ st with isLoading := true, error := none }, initialSwapState], true) ∧
    st.isLoading :: (executeSwap st).1.map SwapState.isLoading = [false, true, false] ∧
    initialSwapState =
      { fromToken := none, toToken := none, fromAmount := "", toAmount := "",
        isLoading := false, error := none } := by
  refine ⟨?_, ?_, rfl⟩ <;> simp [executeSwap, hv, hl, resetForm, initialSwapState]

/-- Witness for C6: `executeSwap` on the ETH→BTC session with amount `"10"`. -/
theorem executeSwap_success_spec_witness :
    (validateSwapData readyState.fromToken readyState.toToken
        readyState.fromAmount).isValid = true ∧
    executeSwap readyState =
      ([{ readyState with isLoading := true, error := none }, initialSwapState], true) :=
  ⟨by decide, (executeSwap_success_spec readyState (by decide) (by decide)).1⟩

/-- C7: for a debounced function with delay `D`, any non-empty chronological
burst of calls in which each call arrives strictly within `D` of its
predecessor produces exactly one execution, scheduled `D` after the last call
and carrying the last call's arguments; every earlier scheduled execution is
cancelled before firing, so none runs at all. -/
theorem debounce_last_call_wins {α : Type} (delay : ℕ) (calls : List (ℕ × α))
    (hne : calls ≠ [])
    (hburst : calls.Chain' (fun p q => p.1 ≤ q.1 ∧ q.1 < p.1 + delay)) :
    debounceRun delay calls =
      [((calls.getLast hne).1 + delay, (calls.getLast hne).2)] := by
  induction calls with
  | nil => exact absurd rfl hne
  | cons x xs ih =>
    cases xs with
    | nil => simp [debounceRun]
    | cons y ys =>
      have hxy : x.1 ≤ y.1 ∧ y.1 < x.1 + delay := (List.chain'_cons.mp hburst).1
      have hlt : ¬ x.1 + delay ≤ y.1 := by omega
      rw [debounceRun, if_neg hlt,
        ih (by simp) (List.chain'_cons.mp hburst).2,
        List.getLast_cons (by simp : (y :: ys : List (ℕ × α)) ≠ [])]

/-- Witness for C7: three calls at 0ms, 100ms and 250ms with a 300ms delay
collapse to the single execution `(550, 3)`. -/
theorem debounce_last_call_wins_witness :
    ([((0 : ℕ), (1 : ℕ)), (100, 2), (250, 3)] : List (ℕ × ℕ)) ≠ [] ∧
    debounceRun 300 [((0 : ℕ), (1 : ℕ)), (100, 2), (250, 3)] = [(550, 3)] :=
  ⟨by decide,
   by
    have h := debounce_last_call_wins 300 [((0 : ℕ), (1 : ℕ)), (100, 2), (250, 3)]
      (by decide) (by simp [List.chain'_cons])
    simpa using h⟩

/-- C3 counterexample: the token with price `-1` has no positive price, yet
`calculateExchangeRate` returns `-1`, not `0` — the claim's "missing a
positive price" guard does not hold for negative prices (JS only tests
falsiness of the price). -/
theorem calculateExchangeRate_negative_price :
    ¬ 0 < negPriceToken.price ∧
    calculateExchangeRate (some negPriceToken) (some oneToken) = -1 ∧
    calculateExchangeRate (some negPriceToken) (some oneToken) ≠ 0 := by
  refine ⟨by decide, by decide, by decide⟩

/-- C3 (amended): `calculateExchangeRate` returns `0` when either token is
absent or has a zero (falsy) price — negative prices are not guarded — and
otherwise returns `fromToken.price / toToken.price`; in particular a null
token gives `0`, a zero price gives `0`, and ETH at 2000 against BTC at 30000
gives `0.0667` to 4-decimal tolerance. -/
theorem calculateExchangeRate_spec (f t : Token) (tok : Option Token) :
    calculateExchangeRate none tok = 0 ∧
    calculateExchangeRate tok none = 0 ∧
    (f.price = 0 ∨ t.price = 0 → calculateExchangeRate (some f) (some t) = 0) ∧
    (f.price ≠ 0 → t.price ≠ 0 →
      calculateExchangeRate (some f) (some t) = f.price / t.price) ∧
    |calculateExchangeRate (some ethToken) (some btcToken) - 667 / 10000| < 1 / 20000 := by
  refine ⟨rfl, ?_, fun h => ?_, fun h1 h2 => ?_, ?_⟩
  · cases tok <;> rfl
  · simp [calculateExchangeRate, h]
  · simp [calculateExchangeRate, h1, h2]
  · have : calculateExchangeRate (some ethToken) (some btcToken) = 1 / 15 := by decide
    rw [this]
    rw [abs_lt]
    constructor <;> norm_num

/-- Witness for C3: a zero-priced source token yields rate `0`, and nonzero
prices yield the quotient. -/
theorem calculateExchangeRate_spec_witness :
    calculateExchangeRate (some zeroPriceToken) (some oneToken) = 0 ∧
    calculateExchangeRate (some ethToken) (some btcToken) = ethToken.price / btcToken.price :=
  ⟨(calculateExchangeRate_spec zeroPriceToken oneToken none).2.2.1 (by decide),
   (calculateExchangeRate_spec ethToken btcToken none).2.2.2.1 (by decide) (by decide)⟩

/-- C9 counterexample: in a session whose derived exchange rate is `0`,
`setToAmount "5"` stores the new `toAmount` but leaves `fromAmount` exactly as
it was (`"7"`): the truthiness guard `exchangeRate && amount` skips the
reverse calculation, so no division by zero happens and no non-finite value is
ever written. -/
theorem setToAmount_zero_rate_counterexample :
    exchangeRateOf zeroRateState = some 0 ∧
    decPat "5" = true ∧ ("5" : String) ≠ "" ∧
    setToAmount "5" zeroRateState = { zeroRateState with toAmount := "5" } ∧
    (setToAmount "5" zeroRateState).fromAmount = "7" := by
  refine ⟨by decide, by decide, by decide, by decide, by decide⟩

/-- C9 (amended): whenever the session's exchange rate is `0` (or no rate
exists), `setToAmount` with a pattern-valid amount only stores that amount:
the reverse calculation is skipped entirely by the falsy-rate guard, so
`fromAmount` is unchanged and `1 / exchangeRate` is never evaluated. -/
theorem setToAmount_zero_rate_spec (st : SwapState) (amount : String)
    (hr : exchangeRateOf st = some 0 ∨ exchangeRateOf st = none)
    (hp : decPat amount = true) :
    setToAmount amount st = { st with toAmount := amount } ∧
    (setToAmount amount st).fromAmount = st.fromAmount := by
  have h1 : setToAmount amount st = { st with toAmount := amount } := by
    unfold setToAmount
    rcases hr with hr | hr <;> rw [hr] <;> simp [hp]
  exact ⟨h1, by rw [h1]⟩

/-- Witness for C9: the zero-rate session with amount `"5"`. -/
theorem setToAmount_zero_rate_spec_witness :
    (exchangeRateOf zeroRateState = some 0 ∨ exchangeRateOf zeroRateState = none) ∧
    decPat "5" = true ∧
    setToAmount "5" zeroRateState = { zeroRateState with toAmount := "5" } :=
  ⟨Or.inl (by decide), by decide,
   (setToAmount_zero_rate_spec zeroRateState "5" (Or.inl (by decide)) (by decide)).1⟩

theorem mem_upsert_keys (acc : List PriceSample) (item : PriceSample) (c : String) :
    c ∈ (upsert acc item).map PriceSample.currency ↔
      c ∈ acc.map PriceSample.currency ∨ c = item.currency := by
  induction acc with
  | nil => simp [upsert]
  | cons x xs ih =>
    by_cases h : x.currency = item.currency
    · rw [upsert, if_pos h]
      by_cases hd : item.date > x.date
      · rw [if_pos hd]
        simp [h]
        tauto
      · rw [if_neg hd]
        simp [h]
        tauto
    · rw [upsert, if_neg h]
      simp only [List.map_cons, List.mem_cons] at ih ⊢
      rw [ih]
      tauto

theorem upsert_keys_nodup (acc : List PriceSample) (item : PriceSample)
    (h : (acc.map PriceSample.currency).Nodup) :
    ((upsert acc item).map PriceSample.currency).Nodup := by
  induction acc with
  | nil => simp [upsert]
  | cons x xs ih =>
    rw [List.map_cons, List.nodup_cons] at h
    by_cases hc : x.currency = item.currency
    · rw [upsert, if_pos hc]
      by_cases hd : item.date > x.date
      · rw [if_pos hd]
        rw [List.map_cons, List.nodup_cons]
        exact ⟨by rw [← hc]; exact h.1, h.2⟩
      · rw [if_neg hd]
        rw [List.map_cons, List.nodup_cons]
        exact h
    · rw [upsert, if_neg hc]
      rw [List.map_cons, List.nodup_cons]
      refine ⟨?_, ih h.2⟩
      rw [mem_upsert_keys]
      rintro (hmem | heq)
      · exact h.1 hmem
      · exact hc heq

theorem mem_upsert (acc : List PriceSample) (item : PriceSample)
    (hnd : (acc.map PriceSample.currency).Nodup) :
    ∀ s ∈ upsert acc item,
      (s ∈ acc ∧ (s.currency = item.currency → item.date ≤ s.date)) ∨
      (s = item ∧ ∀ x ∈ acc, x.currency = item.currency → x.date < item.date) := by
  induction acc with
  | nil =>
    intro s hs
    simp only [upsert, List.mem_singleton] at hs
    subst hs
    exact Or.inr ⟨rfl, by simp⟩
  | cons x xs ih =>
    intro s hs
    rw [List.map_cons, List.nodup_cons] at hnd
    by_cases hc : x.currency = item.currency
    · rw [upsert, if_pos hc] at hs
      rcases List.mem_cons.mp hs with hs | hs
      · by_cases hd : item.date > x.date
        · rw [if_pos hd] at hs
          subst hs
          refine Or.inr ⟨rfl, ?_⟩
          intro y hy hyc
          rcases List.mem_cons.mp hy with rfl | hy
          · exact hd
          · exact absurd (List.mem_map.mpr ⟨y, hy, by rw [hyc, ← hc]⟩) hnd.1
        · rw [if_neg hd] at hs
          subst hs
          exact Or.inl ⟨List.mem_cons_self _ _, fun _ => not_lt.mp hd⟩
      · refine Or.inl ⟨List.mem_cons_of_mem _ hs, fun hsc => ?_⟩
        exact absurd (List.mem_map.mpr ⟨s, hs, by rw [hsc, ← hc]⟩) hnd.1
    · rw [upsert, if_neg hc] at hs
      rcases List.mem_cons.mp hs with rfl | hs
      · exact Or.inl ⟨List.mem_cons_self _ _, fun h => absurd h hc⟩
      · rcases ih hnd.2 s hs with ⟨h1, h2⟩ | ⟨h1, h2⟩
        · exact Or.inl ⟨List.mem_cons_of_mem _ h1, h2⟩
        · refine Or.inr ⟨h1, ?_⟩
          intro y hy hyc
          rcases List.mem_cons.mp hy with rfl | hy
          · exact absurd hyc hc
          · exact h2 y hy hyc

theorem MapInv_step {processed acc : List PriceSample} (h : MapInv processed acc)
    (item : PriceSample) : MapInv (processed ++ [item]) (upsert acc item) := by
  obtain ⟨hnd, hkeys, hmax⟩ := h
  refine ⟨upsert_keys_nodup acc item hnd, ?_, ?_⟩
  · intro c
    rw [mem_upsert_keys, hkeys, List.map_append, List.mem_append]
    simp
  · intro s hs
    rcases mem_upsert acc item hnd s hs with ⟨h1, h2⟩ | ⟨h1, h2⟩
    · obtain ⟨hp, hm⟩ := hmax s h1
      refine ⟨List.mem_append_left _ hp, ?_⟩
      intro s' hs' hc
      rcases List.mem_append.mp hs' with hs' | hs'
      · exact hm s' hs' hc
      · rw [List.mem_singleton] at hs'
        subst hs'
        exact h2 hc.symm
    · subst h1
      refine ⟨List.mem_append_right _ (by simp), ?_⟩
      intro s' hs' hc
      rcases List.mem_append.mp hs' with hs' | hs'
      · have hmem : s.currency ∈ acc.map PriceSample.currency :=
          (hkeys s.currency).mpr (List.mem_map.mpr ⟨s', hs', hc⟩)
        obtain ⟨y, hy, hyc⟩ := List.mem_map.mp hmem
        have h3 := (hmax y hy).2 s' hs' (by rw [hc, ← hyc])
        have h4 := h2 y hy hyc
        omega
      · rw [List.mem_singleton] at hs'
        subst hs'
        exact le_refl _

theorem MapInv_foldl (l : List PriceSample) :
    ∀ processed acc, MapInv processed acc →
      MapInv (processed ++ l) (l.foldl upsert acc) := by
  induction l with
  | nil =>
    intro p acc h
    simpa using h
  | cons x xs ih =>
    intro p acc h
    have h3 := ih (p ++ [x]) (upsert acc x) (MapInv_step h x)
    simpa [List.append_assoc] using h3

/-- C2: `processTokenData` produces exactly one `Token` per distinct currency
occurring in the input sample list, and that token's `price` and `lastUpdated`
are taken from an input sample of that currency whose `date` is maximal among
the input's samples for that currency. -/
theorem processTokenData_spec (l : List PriceSample) :
    ((processTokenData l).map Token.currency).Nodup ∧
    (∀ c, c ∈ (processTokenData l).map Token.currency ↔
      c ∈ l.map PriceSample.currency) ∧
    ∀ t ∈ processTokenData l, ∃ s ∈ l, s.currency = t.currency ∧
      s.price = t.price ∧ s.date = t.lastUpdated ∧
      ∀ s' ∈ l, s'.currency = t.currency → s'.date ≤ s.date := by
  have hinv : MapInv l (l.foldl upsert []) := by
    have h0 : MapInv [] [] := ⟨by simp, by simp, by simp⟩
    simpa using MapInv_foldl l [] [] h0
  obtain ⟨hnd, hkeys, hmax⟩ := hinv
  have hmap : (processTokenData l).map Token.currency =
      (l.foldl upsert []).map PriceSample.currency := by
    unfold processTokenData
    rw [List.map_map]
    rfl
  refine ⟨by rw [hmap]; exact hnd, fun c => by rw [hmap]; exact hkeys c, ?_⟩
  intro t ht
  unfold processTokenData at ht
  obtain ⟨s, hs, hst⟩ := List.mem_map.mp ht
  obtain ⟨hp, hm⟩ := hmax s hs
  subst hst
  exact ⟨s, hp, rfl, rfl, rfl, fun s' hs' hc => hm s' hs' hc⟩

theorem digitChar_isDigit {d : ℕ} (h : d < 10) : (digitChar d).isDigit = true := by
  interval_cases d <;> decide

theorem natDigitsAux_digits (fuel : ℕ) :
    ∀ n, ∀ c ∈ natDigitsAux fuel n, c.isDigit = true := by
  induction fuel with
  | zero => intro n c hc; simp [natDigitsAux] at hc
  | succ fuel ih =>
    intro n c hc
    rw [natDigitsAux] at hc
    by_cases h : n < 10
    · rw [if_pos h] at hc
      rw [List.mem_singleton] at hc
      subst hc
      exact digitChar_isDigit h
    · rw [if_neg h] at hc
      rcases List.mem_append.mp hc with hc | hc
      · exact ih _ c hc
      · rw [List.mem_singleton] at hc
        subst hc
        exact digitChar_isDigit (Nat.mod_lt _ (by norm_num))

theorem fracDigits_digits (fuel : ℕ) :
    ∀ q : ℚ, 0 ≤ q → q < 1 → ∀ c ∈ fracDigits fuel q, c.isDigit = true := by
  induction fuel with
  | zero => intro q _ _ c hc; simp [fracDigits] at hc
  | succ fuel ih =>
    intro q h0 h1 c hc
    by_cases hz : q = 0
    · rw [fracDigits, if_pos hz] at hc
      simp at hc
    · rw [fracDigits, if_neg hz] at hc
      simp only [] at hc
      have hd0 : (0 : ℤ) ≤ ⌊q * 10⌋ := Int.floor_nonneg.mpr (by positivity)
      have hd10 : ⌊q * 10⌋ < 10 := Int.floor_lt.mpr (by push_cast; linarith)
      have hcast : ((⌊q * 10⌋.toNat : ℕ) : ℚ) = (⌊q * 10⌋ : ℚ) := by
        exact_mod_cast congrArg (fun z : ℤ => (z : ℚ)) (Int.toNat_of_nonneg hd0)
      rcases List.mem_cons.mp hc with rfl | hc
      · exact digitChar_isDigit (by omega)
      · refine ih (q * 10 - (⌊q * 10⌋.toNat : ℕ)) ?_ ?_ c hc
        · rw [hcast]
          have := Int.floor_le (q * 10)
          linarith
        · rw [hcast]
          have := Int.lt_floor_add_one (q * 10)
          linarith

theorem decPatList_of_digits (ds : List Char) (h : ∀ c ∈ ds, c.isDigit = true) :
    decPatList ds = true := by
  rw [decPatList]
  have : ds.dropWhile Char.isDigit = [] := List.dropWhile_eq_nil_iff.mpr h
  rw [this]

theorem dropWhile_digits_append (ds : List Char) (rest : List Char)
    (h : ∀ c ∈ ds, c.isDigit = true) :
    (ds ++ '.' :: rest).dropWhile Char.isDigit = '.' :: rest := by
  induction ds with
  | nil => simp [List.dropWhile_cons]
  | cons d ds ih =>
    rw [List.cons_append, List.dropWhile_cons, if_pos (h d (List.mem_cons_self _ _))]
    exact ih fun c hc => h c (List.mem_cons_of_mem _ hc)

theorem decPatList_digits_dot (ds fs : List Char)
    (hds : ∀ c ∈ ds, c.isDigit = true) (hfs : ∀ c ∈ fs, c.isDigit = true) :
    decPatList (ds ++ '.' :: fs) = true := by
  rw [decPatList, dropWhile_digits_append ds fs hds]
  exact List.all_eq_true.mpr hfs

theorem posRatDecimal_decPat (q : ℚ) (h0 : 0 ≤ q) :
    decPatList (posRatDecimal q) = true := by
  rw [posRatDecimal]
  have hfl : (0 : ℤ) ≤ ⌊q⌋ := Int.floor_nonneg.mpr h0
  have hcast : ((⌊q⌋.toNat : ℕ) : ℚ) = (⌊q⌋ : ℚ) := by
    exact_mod_cast congrArg (fun z : ℤ => (z : ℚ)) (Int.toNat_of_nonneg hfl)
  by_cases hz : q - ((⌊q⌋.toNat : ℕ) : ℚ) = 0
  · rw [if_pos hz, List.append_nil]
    exact decPatList_of_digits _ (natDigitsAux_digits 400 _)
  · rw [if_neg hz]
    refine decPatList_digits_dot _ _ (natDigitsAux_digits 400 _) ?_
    refine fracDigits_digits 100 _ ?_ ?_
    · rw [hcast]
      have := Int.floor_le q
      linarith
    · rw [hcast]
      have := Int.lt_floor_add_one q
      linarith

theorem jsNumToString_decPat (q : ℚ) (h0 : 0 ≤ q)
    (hbig : ¬ (10 : ℚ) ^ (21 : ℕ) ≤ q) (hsmall : ¬ (0 < q ∧ q < 1 / 10 ^ (6 : ℕ))) :
    decPat (jsNumToString (.fin q)) = true := by
  by_cases hz : q = 0
  · subst hz
    decide
  · have hpos : 0 < q := lt_of_le_of_ne h0 (Ne.symm hz)
    have hnotlt : ¬ q < 1 / 10 ^ (6 : ℕ) := fun h => hsmall ⟨hpos, h⟩
    have : jsNumToString (.fin q) = String.mk (posRatDecimal q) := by
      rw [jsNumToString, ratToChars, if_neg hz, if_neg (not_lt.mpr h0),
        posRatChars, if_neg (by tauto)]
    rw [this]
    exact posRatDecimal_decPat q h0

theorem calculateOutputAmount_nonneg (s : String) (r : ℚ) (q : ℚ)
    (h : calculateOutputAmount s r = .fin q) : 0 ≤ q := by
  rcases hp : parseFloat s with _ | _ | _ | a <;>
    simp only [calculateOutputAmount, hp, JSNum.fin.injEq] at h
  · rw [← h]
  · split at h
    · simp only [JSNum.fin.injEq] at h
      rw [← h]
    · exact JSNum.noConfusion h
  · rw [← h]
  · split at h
    · simp only [JSNum.fin.injEq] at h
      rw [← h]
    · rename_i ha
      simp only [JSNum.fin.injEq] at h
      push_neg at ha
      rw [← h]
      exact le_of_lt (mul_pos ha.1 ha.2)

/-- C8 counterexample: `hugeAmountState` is reachable through the accepting
setters (its `fromAmount` `"1e16"-as-digits` matches the pattern), yet when the
debounced recomputation fires, `toAmount` receives `Number.toString()` of
`5 * 10^21` — the string `"5e+21"` — which does not match `/^\d*\.?\d*$/`:
the recomputation writes amounts unchecked, so the lexical invariant is not
preserved by every amount-writing operation. -/
theorem amount_pattern_counterexample :
    decPat "10000000000000000" = true ∧
    amountsValid hugeAmountState ∧
    (autoCalcEffect hugeAmountState).toAmount = "5e+21" ∧
    decPat (autoCalcEffect hugeAmountState).toAmount = false := by
  exact ⟨by decide, ⟨by decide, by decide⟩, by decide, by decide⟩

/-- C8 (amended): the amount setters accept exactly the pattern-matching
strings (a non-matching argument leaves the whole state unchanged) and
`swapTokens`, `resetForm` and `executeSwap` preserve the lexical amount
invariant unconditionally; the debounced recomputation and the reverse
calculation of `setToAmount`, however, write `Number.toString()` output
without any pattern check, and preserve the invariant only when the computed
value is zero or lies in the plain-decimal range `[1e-6, 1e21)` — the
rendering of any such value matches the pattern, while values outside that
range render in scientific form and break it. -/
theorem amount_pattern_preservation :
    (∀ st s, decPat s = false → setFromAmount s st = st ∧ setToAmount s st = st) ∧
    (∀ st s, decPat s = true → amountsValid st → amountsValid (setFromAmount s st)) ∧
    (∀ st, amountsValid st → amountsValid (swapTokens st) ∧ amountsValid (resetForm st)) ∧
    (∀ st, amountsValid st → ∀ s ∈ (executeSwap st).1, amountsValid s) ∧
    (∀ q : ℚ, 0 ≤ q → ¬ (10 : ℚ) ^ (21 : ℕ) ≤ q → ¬ (0 < q ∧ q < 1 / 10 ^ (6 : ℕ)) →
      decPat (jsNumToString (.fin q)) = true) ∧
    (∀ st rate q, amountsValid st →
      calculateOutputAmount st.fromAmount rate = .fin q →
      ¬ (10 : ℚ) ^ (21 : ℕ) ≤ q → ¬ (0 < q ∧ q < 1 / 10 ^ (6 : ℕ)) →
      amountsValid (debouncedCalculateToAmount st.fromAmount (some rate) st)) ∧
    (∀ st s rate q, decPat s = true → amountsValid st →
      exchangeRateOf st = some rate →
      calculateOutputAmount s (1 / rate) = .fin q →
      ¬ (10 : ℚ) ^ (21 : ℕ) ≤ q → ¬ (0 < q ∧ q < 1 / 10 ^ (6 : ℕ)) →
      amountsValid (setToAmount s st)) := by
  have hempty : decPat "" = true := by decide
  refine ⟨?_, ?_, ?_, ?_, jsNumToString_decPat, ?_, ?_⟩
  · intro st s hs
    have hne : s ≠ "" := by
      intro he
      rw [he] at hs
      exact absurd hs (by decide)
    constructor
    · rw [setFromAmount, if_neg (by simp [hne, hs])]
    · rw [setToAmount, if_neg (by simp [hne, hs])]
  · intro st s hs hv
    rw [setFromAmount, if_pos (by simp [hs])]
    exact ⟨hs, hv.2⟩
  · intro st hv
    exact ⟨⟨hv.2, hv.1⟩, ⟨hempty, hempty⟩⟩
  · intro st hv s hs
    rw [executeSwap] at hs
    split at hs
    · rcases List.mem_cons.mp hs with rfl | hs
      · exact hv
      · rcases List.mem_cons.mp hs with rfl | hs
        · exact ⟨hempty, hempty⟩
        · simp at hs
    · rcases List.mem_cons.mp hs with rfl | hs
      · exact hv
      · simp at hs
  · intro st rate q hv hq hbig hsmall
    rw [debouncedCalculateToAmount]
    split
    · exact ⟨hv.1, by
        rw [hq]
        exact jsNumToString_decPat q (calculateOutputAmount_nonneg _ _ _ hq) hbig hsmall⟩
    · exact ⟨hv.1, hempty⟩
  · intro st s rate q hs hv hr hq hbig hsmall
    rw [setToAmount, if_pos (by simp [hs]), hr]
    split
    · rename_i r' heq
      injection heq with heq
      subst heq
      split
      · exact ⟨by
          rw [hq]
          exact jsNumToString_decPat q (calculateOutputAmount_nonneg _ _ _ hq) hbig hsmall,
          hs⟩
      · exact ⟨hv.1, hs⟩
    · rename_i heq
      exact absurd heq (by simp)

/-- Witness for C8: a valid edit is accepted and keeps the invariant, and a
debounced recomputation whose value (`2/3`) is in plain-decimal range
preserves it. -/
theorem amount_pattern_preservation_witness :
    (decPat "10" = true ∧ amountsValid initialSwapState ∧
      amountsValid (setFromAmount "10" initialSwapState)) ∧
    (calculateOutputAmount readyState.fromAmount (1 / 15) = .fin (2 / 3) ∧
      amountsValid (debouncedCalculateToAmount readyState.fromAmount (some (1 / 15)) readyState)) :=
  ⟨⟨by decide, ⟨by decide, by decide⟩,
    amount_pattern_preservation.2.1 initialSwapState "10" (by decide) ⟨by decide, by decide⟩⟩,
   ⟨by decide,
    amount_pattern_preservation.2.2.2.2.2.1 readyState (1 / 15) (2 / 3)
      ⟨by decide, by decide⟩ (by decide) (by decide) (by decide)⟩⟩
